import Mathlib

/-!
Shallow embedding of `tc_aws/aws/storage.py` (class `AwsStorage`): the
path-normalization engine (`_normalize_path`, `_generate_digest`), the expiry
policy (`is_expired`, `_get_error`), the existence check (`exists`), the crypto
sidecar write gate (`put_crypto`) and the sidecar key derivations used by
`get_crypto` / `get_detector_data`.

Python strings are Lean `String`s (a wrapper around `List Char`); Python
`dict` responses from the object store are modelled by `Descriptor`, with
`Option` fields for optional keys and explicit truthiness functions mirroring
Python truth testing.  Timestamps are microseconds since the epoch as `Nat`
(the resolution of Python `datetime`), and `timedelta.seconds` is modelled
with floor division and Euclidean remainder, matching Python semantics for
negative differences as well.
-/

namespace TcAws

/-! ### Python string helpers -/

/-- Python `s.lstrip('/')`: drop every leading slash character. -/
def lstripSlashes (s : String) : String :=
  ⟨s.data.dropWhile (fun c => c == '/')⟩

/-- Python `s.startswith('/')`. -/
def startsWithSlash (s : String) : Bool :=
  s.data.head? == some '/'

/-- Python `s.endswith('/')`. -/
def endsWithSlash (s : String) : Bool :=
  s.data.getLast? == some '/'

/-! ### `posixpath.join` (what `os.path.join` means for these keys) -/

/-- One step of CPython `posixpath.join`: absorb component `b` into the
accumulated path `a`.  A component starting with `/` resets the path. -/
def joinStep (a b : String) : String :=
  if startsWithSlash b then b
  else if a == "" || endsWithSlash a then a ++ b
  else a ++ "/" ++ b

/-- CPython `posixpath.join(a, *rest)`. -/
def osJoin : String → List String → String
  | a, [] => a
  | a, b :: rest => osJoin (joinStep a b) rest

/-- The join expression of `_normalize_path`:
`join(path_segments[0], *path_segments[1:]).lstrip('/') if len(path_segments) > 1
else path_segments[0]`. -/
def joinSegs : List String → String
  | [] => ""
  | [x] => x
  | x :: rest => lstripSlashes (osJoin x rest)

/-! ### `posixpath.splitext` (root part only, as used by the sidecar paths) -/

/-- Split a character list at the last `/`, returning the basename
(the part after the last separator; the whole list when there is none). -/
def basenamePart : List Char → List Char
  | [] => []
  | c :: rest =>
      if rest.contains '/' then basenamePart rest
      else if c = '/' then rest
      else c :: rest

/-- The prefix of the list strictly before its last `.`, when a dot exists. -/
def upToLastDot : List Char → Option (List Char)
  | [] => none
  | c :: rest =>
      match upToLastDot rest with
      | some t => some (c :: t)
      | none => if c = '.' then some ([] : List Char) else none

/-- CPython `posixpath.splitext(p)[0]`: the extension starts at the last dot
of the basename, unless every character of the basename before that dot is
itself a dot (leading dots are not an extension). -/
def splitextRoot (s : String) : String :=
  let base := basenamePart s.data
  if (base.dropWhile (fun c => c = '.')).contains '.' then
    ⟨(upToLastDot s.data).getD s.data⟩
  else s

/-! ### Storage policy (configuration consumed by `_normalize_path`) -/

/-- Configuration slice read by `_normalize_path` and friends:
`{PREFIX}_ROOT_PATH` (absent or a string), the resolved `is_auto_webp`
flag, `TC_AWS_RANDOMIZE_KEYS`, and `TC_AWS_ROOT_IMAGE_NAME`. -/
structure Policy where
  rootPath : Option String
  autoWebp : Bool
  randomizeKeys : Bool
  rootImageName : String
deriving DecidableEq

/-! ### Object-store response descriptors and `_get_error` -/

/-- The value of the `Error` key of a response dict: an optional `Message`
entry plus a flag recording whether the dict holds any further keys
(needed to model Python truth testing of the dict). -/
structure ErrorVal where
  message : Option String
  hasOtherFields : Bool
deriving DecidableEq

/-- An object-store response dict: optional `Error` and `LastModified`
entries plus a flag for any remaining keys (`Body`, metadata, ...).
`LastModified` is microseconds since the epoch. -/
structure Descriptor where
  errorField : Option ErrorVal
  lastModifiedUs : Option Nat
  hasOtherFields : Bool
deriving DecidableEq

/-- Python truth testing of the response dict: non-empty iff it has a key. -/
def Descriptor.isTruthy (d : Descriptor) : Bool :=
  d.errorField.isSome || d.lastModifiedUs.isSome || d.hasOtherFields

/-- The value returned by `_get_error` when it is not `None`: either the
`Message` string or the whole `Error` dict. -/
inductive PyErr where
  | msg (s : String)
  | errDict (e : ErrorVal)
deriving DecidableEq

/-- Python truth testing of a `_get_error` result: a string is truthy iff
non-empty, a dict iff non-empty. -/
def PyErr.isTruthy : PyErr → Bool
  | .msg s => !(s == "")
  | .errDict e => e.message.isSome || e.hasOtherFields

/-- `AwsStorage._get_error`: `response['Error']['Message']` when present,
else `response['Error']` when present, else `None`. -/
def get_error (d : Descriptor) : Option PyErr :=
  match d.errorField with
  | some e =>
      match e.message with
      | some m => some (.msg m)
      | none => some (.errDict e)
  | none => none

/-- Truthiness of an optional `_get_error` result (`None` is falsy). -/
def errTruthy : Option PyErr → Bool
  | none => false
  | some e => e.isTruthy

/-! ### Expiry policy -/

/-- Python `timedelta.seconds` of a difference of `totalUs` microseconds:
the normalized seconds-within-day component, i.e. floor-divide to whole
seconds and reduce modulo 86400.  The day component is discarded. -/
def timedeltaSeconds (totalUs : Int) : Int :=
  (Int.fdiv totalUs 1000000).emod 86400

/-- `AwsStorage.is_expired`.  `expireInSeconds` models
`storage_expiration_seconds` (`none` = unset), `nowUs` models
`datetime.now(tzutc())`, `key` models the response (`none` = Python `None`).
The guard `key and self._get_error(key) is None and 'LastModified' in key`
falls through to `True` when it fails. -/
def is_expired (expireInSeconds : Option Nat) (nowUs : Nat)
    (key : Option Descriptor) : Bool :=
  match key with
  | none => true
  | some d =>
      if d.isTruthy && (get_error d).isNone && d.lastModifiedUs.isSome then
        match expireInSeconds with
        | none => false
        | some t =>
            if t == 0 then false
            else
              decide (timedeltaSeconds
                ((nowUs : Int) - (d.lastModifiedUs.getD 0 : Int)) > (t : Int))
      else true

/-! ### Key derivation (`_normalize_path`, `_generate_digest`) -/

/-- The segment list of `_normalize_path` as it stands after leading-slash
stripping, root-path insertion and webp appending, i.e. just before the
randomization step.  `root_path` is inserted only when truthy
(`if root_path and root_path is not ''`). -/
def preRandomSegs (cfg : Policy) (path : String) : List String :=
  let p := lstripSlashes path
  let segs :=
    match cfg.rootPath with
    | some r => if r == "" then [p] else [r, p]
    | none => [p]
  if cfg.autoWebp then segs ++ ["webp"] else segs

/-! ### UTF-8 encoding (`str.encode('utf-8')`) as a list of byte values -/

/-- UTF-8 bytes of one Unicode scalar value. -/
def utf8Bytes (c : Char) : List Nat :=
  let n := c.toNat
  if n < 128 then [n]
  else if n < 2048 then
    [192 ||| (n >>> 6), 128 ||| (n &&& 63)]
  else if n < 65536 then
    [224 ||| (n >>> 12), 128 ||| ((n >>> 6) &&& 63), 128 ||| (n &&& 63)]
  else
    [240 ||| (n >>> 18), 128 ||| ((n >>> 12) &&& 63),
     128 ||| ((n >>> 6) &&& 63), 128 ||| (n &&& 63)]

/-- UTF-8 bytes of a string. -/
def strUtf8 (s : String) : List Nat :=
  s.data.flatMap utf8Bytes

/-! ### SHA-1 (`hashlib.sha1(...).hexdigest()`)

Words are `Nat` values reduced modulo `2 ^ 32` wherever an addition or shift
could overflow; bytes are `Nat` values below 256. -/

/-- Rotate a 32-bit word left by `n` bits. -/
def rotl (n x : Nat) : Nat :=
  ((x <<< n) ||| (x >>> (32 - n))) % 4294967296

/-- The SHA-1 round function for round `t`. -/
def sha1f (t b c d : Nat) : Nat :=
  if t < 20 then (b &&& c) ||| ((b ^^^ 4294967295) &&& d)
  else if t < 40 then b ^^^ c ^^^ d
  else if t < 60 then (b &&& c) ||| (b &&& d) ||| (c &&& d)
  else b ^^^ c ^^^ d

/-- The SHA-1 round constant for round `t`. -/
def sha1k (t : Nat) : Nat :=
  if t < 20 then 1518500249
  else if t < 40 then 1859775393
  else if t < 60 then 2400959708
  else 3395469782

/-- Big-endian 32-bit words from a list of bytes. -/
def wordsOfBytes : List Nat → List Nat
  | b0 :: b1 :: b2 :: b3 :: rest =>
      (((b0 * 256 + b1) * 256 + b2) * 256 + b3) :: wordsOfBytes rest
  | _ => []

/-- Message-schedule extension: `w` holds the words produced so far in
reverse order; perform `k` more extension steps. -/
def sha1Extend : List Nat → Nat → List Nat
  | w, 0 => w
  | w, k + 1 =>
      sha1Extend
        (rotl 1 (w.getD 2 0 ^^^ w.getD 7 0 ^^^ w.getD 13 0 ^^^ w.getD 15 0) :: w)
        k

/-- The five 32-bit working registers of SHA-1. -/
structure SHA1State where
  a : Nat
  b : Nat
  c : Nat
  d : Nat
  e : Nat
deriving DecidableEq

/-- The 80 SHA-1 rounds, consuming the message schedule from round `t` on. -/
def sha1Rounds : List Nat → Nat → SHA1State → SHA1State
  | [], _, st => st
  | wt :: ws, t, st =>
      let temp :=
        (rotl 5 st.a + sha1f t st.b st.c st.d + st.e + sha1k t + wt) % 4294967296
      sha1Rounds ws (t + 1) ⟨temp, st.a, rotl 30 st.b, st.c, st.d⟩

/-- Compress one 64-byte chunk into the running hash state. -/
def sha1Compress (st : SHA1State) (chunk : List Nat) : SHA1State :=
  let w := (sha1Extend ((wordsOfBytes chunk).reverse) 64).reverse
  let r := sha1Rounds w 0 st
  ⟨(st.a + r.a) % 4294967296, (st.b + r.b) % 4294967296,
   (st.c + r.c) % 4294967296, (st.d + r.d) % 4294967296,
   (st.e + r.e) % 4294967296⟩

/-- Merkle–Damgård padding: append `0x80`, zero bytes to 56 mod 64, then the
bit length as eight big-endian bytes. -/
def sha1pad (msg : List Nat) : List Nat :=
  let len := msg.length
  let zeros := (119 - len % 64) % 64
  let bitLen := len * 8
  msg ++ 128 :: List.replicate zeros 0 ++
    [(bitLen >>> 56) &&& 255, (bitLen >>> 48) &&& 255, (bitLen >>> 40) &&& 255,
     (bitLen >>> 32) &&& 255, (bitLen >>> 24) &&& 255, (bitLen >>> 16) &&& 255,
     (bitLen >>> 8) &&& 255, bitLen &&& 255]

/-- Fold `n` chunks of 64 bytes through the compression function. -/
def sha1Fold : Nat → List Nat → SHA1State → SHA1State
  | 0, _, st => st
  | n + 1, bytes, st => sha1Fold n (bytes.drop 64) (sha1Compress st (bytes.take 64))

/-- Big-endian bytes of a 32-bit word. -/
def wordBytes (w : Nat) : List Nat :=
  [(w >>> 24) &&& 255, (w >>> 16) &&& 255, (w >>> 8) &&& 255, w &&& 255]

/-- The 20-byte SHA-1 digest of a byte list. -/
def sha1Bytes (msg : List Nat) : List Nat :=
  let padded := sha1pad msg
  let st := sha1Fold (padded.length / 64) padded
    ⟨1732584193, 4023233417, 2562383102, 271733878, 3285377520⟩
  wordBytes st.a ++ wordBytes st.b ++ wordBytes st.c ++ wordBytes st.d ++
    wordBytes st.e

/-- Lowercase hex character of a value below 16. -/
def hexDigit : Nat → Char
  | 0 => '0' | 1 => '1' | 2 => '2' | 3 => '3'
  | 4 => '4' | 5 => '5' | 6 => '6' | 7 => '7'
  | 8 => '8' | 9 => '9' | 10 => 'a' | 11 => 'b'
  | 12 => 'c' | 13 => 'd' | 14 => 'e' | _ => 'f'

/-- Two hex characters of one byte. -/
def byteHex (b : Nat) : List Char :=
  [hexDigit (b / 16), hexDigit (b % 16)]

/-- `hashlib.sha1(msg).hexdigest()` over a byte list. -/
def sha1hex (msg : List Nat) : String :=
  ⟨(sha1Bytes msg).flatMap byteHex⟩

/-- `AwsStorage._generate_digest`:
`sha1('.'.join(segments).encode('utf-8')).hexdigest()`. -/
def generate_digest (segments : List String) : String :=
  sha1hex (strUtf8 (String.intercalate "." segments))

/-- `AwsStorage._normalize_path`: strip leading slashes, insert the root
path, append `webp`, optionally prepend the digest of the current segment
list, join as a posix path (stripping a leading slash when a join happened),
and substitute `TC_AWS_ROOT_IMAGE_NAME` for a trailing slash. -/
def normalize_path (cfg : Policy) (path : String) : String :=
  let segs := preRandomSegs cfg path
  let allSegs := if cfg.randomizeKeys then generate_digest segs :: segs else segs
  let normalized := joinSegs allSegs
  if endsWithSlash normalized then normalized ++ cfg.rootImageName
  else normalized

/-- The root-path configuration does not begin with a slash (when it does,
`posixpath.join` restarts the joined path there). -/
def rootOkB (cfg : Policy) : Bool :=
  match cfg.rootPath with
  | some r => !startsWithSlash r
  | none => true

/-! ### Facade operations used by the claims -/

/-- `AwsStorage.exists`: fetch the descriptor at the derived key from the
object store (modelled as a function from keys to responses) and report
`False` iff the response is falsy or `_get_error` of it is truthy. -/
def exists_ (store : String → Option Descriptor) (cfg : Policy)
    (path : String) : Bool :=
  match store (normalize_path cfg path) with
  | none => false
  | some d => d.isTruthy && !(errTruthy (get_error d))

/-- Crypto sidecar key: `'%s.txt' % splitext(file_abspath)[0]`. -/
def cryptoSidecarPath (key : String) : String :=
  splitextRoot key ++ ".txt"

/-- Detector sidecar key: `'%s.detectors.txt' % splitext(file_abspath)[0]`. -/
def detectorSidecarPath (key : String) : String :=
  splitextRoot key ++ ".detectors.txt"

/-- Server-level configuration read by `put_crypto`:
`STORES_CRYPTO_KEY_FOR_EACH_IMAGE` and `context.server.security_key`. -/
structure ServerCfg where
  storesCryptoKeyForEachImage : Bool
  securityKey : Option String
deriving DecidableEq

/-- The fatal faults raised by the facade. -/
inductive StorageErr where
  | configurationFault
deriving DecidableEq

/-- Python truth test of `not self.context.server.security_key`. -/
def securityKeyFalsy : Option String → Bool
  | none => true
  | some k => k == ""

/-- `AwsStorage.put_crypto`: return `None` when
`STORES_CRYPTO_KEY_FOR_EACH_IMAGE` is off; raise when it is on but no
security key is configured; otherwise write the security key to the crypto
sidecar of the derived key.  The returned list records the object-store
writes performed (`set` calls), in order. -/
def put_crypto (srv : ServerCfg) (cfg : Policy) (path : String) :
    Except StorageErr (Option String × List (String × String)) :=
  if !srv.storesCryptoKeyForEachImage then .ok (none, [])
  else if securityKeyFalsy srv.securityKey then .error .configurationFault
  else
    let cryptoPath := cryptoSidecarPath (normalize_path cfg path)
    .ok (some cryptoPath, [(cryptoPath, srv.securityKey.getD "")])

/-! ### Helper lemmas on strings -/

theorem data_eq_nil_iff (s : String) : s.data = [] ↔ s = "" := by
  constructor
  · intro h
    apply String.ext
    rw [h]
  · intro h
    rw [h]

theorem data_ne_nil_of_ne_empty {s : String} (h : s ≠ "") : s.data ≠ [] :=
  fun he => h ((data_eq_nil_iff s).mp he)

theorem startsWithSlash_of_forall_ne (s : String)
    (h : ∀ c ∈ s.data, c ≠ '/') : startsWithSlash s = false := by
  unfold startsWithSlash
  cases hl : s.data with
  | nil => rfl
  | cons c t =>
      have hc : c ≠ '/' := h c (by rw [hl]; exact List.mem_cons_self c t)
      simp [hc]

theorem endsWithSlash_of_forall_ne (s : String)
    (h : ∀ c ∈ s.data, c ≠ '/') : endsWithSlash s = false := by
  unfold endsWithSlash
  cases hl : s.data.getLast? with
  | none => rfl
  | some c =>
      have hne : s.data ≠ [] := by
        intro he
        rw [he] at hl
        simp at hl
      rw [List.getLast?_eq_getLast _ hne] at hl
      have hc : c ∈ s.data := Option.some_inj.mp hl ▸ List.getLast_mem hne
      simp [h c hc]

theorem endsWithSlash_append (s t : String) (ht : t ≠ "") :
    endsWithSlash (s ++ t) = endsWithSlash t := by
  unfold endsWithSlash
  rw [String.data_append, List.getLast?_append_of_ne_nil _ (data_ne_nil_of_ne_empty ht)]

theorem startsWithSlash_append (s t : String) (hs : s ≠ "") :
    startsWithSlash (s ++ t) = startsWithSlash s := by
  unfold startsWithSlash
  rw [String.data_append, List.head?_append_of_ne_nil _ (data_ne_nil_of_ne_empty hs)]

theorem append_slash_ne_empty (a : String) : a ++ "/" ≠ "" := by
  intro h
  have h2 := String.ext_iff.mp h
  rw [String.data_append] at h2
  have h3 : ("/" : String).data = ['/'] := rfl
  have h4 : ("" : String).data = [] := rfl
  rw [h3, h4] at h2
  simp at h2

theorem sep_ne_empty (d a : String) : d ++ "/" ++ a ≠ "" := by
  intro h
  have h2 := String.ext_iff.mp h
  rw [String.data_append, String.data_append] at h2
  have h3 : ("/" : String).data = ['/'] := rfl
  have h4 : ("" : String).data = [] := rfl
  rw [h3, h4] at h2
  simp at h2

theorem endsWithSlash_sep (d a : String) :
    endsWithSlash (d ++ "/" ++ a) = ((a == "") || endsWithSlash a) := by
  by_cases h : a = ""
  · subst h
    rw [String.append_empty]
    rw [endsWithSlash_append d "/" (by decide)]
    decide
  · rw [endsWithSlash_append (d ++ "/") a h]
    have h2 : (a == "") = false := by simp [h]
    rw [h2, Bool.false_or]

theorem dropWhile_slash_head (l : List Char) :
    ((l.dropWhile (fun c => c == '/')).head? == some '/') = false := by
  induction l with
  | nil => rfl
  | cons c t ih =>
      rw [List.dropWhile_cons]
      by_cases hc : c = '/'
      · simpa [hc] using ih
      · simp [hc]

theorem startsWithSlash_lstrip (s : String) :
    startsWithSlash (lstripSlashes s) = false :=
  dropWhile_slash_head s.data

theorem lstrip_of_not_starts (s : String) (h : startsWithSlash s = false) :
    lstripSlashes s = s := by
  unfold lstripSlashes
  apply String.ext
  show s.data.dropWhile (fun c => c == '/') = s.data
  cases hl : s.data with
  | nil => rfl
  | cons c t =>
      unfold startsWithSlash at h
      rw [hl, List.head?_cons] at h
      have hc : (c == '/') = false := by simpa using h
      simp [List.dropWhile_cons, hc]

/-! ### Helper lemmas on `posixpath.join` -/

theorem joinStep_sep (d a b : String) (hb : startsWithSlash b = false) :
    joinStep (d ++ "/" ++ a) b = d ++ "/" ++ joinStep a b := by
  unfold joinStep
  have hcond : ((d ++ "/" ++ a == "") || endsWithSlash (d ++ "/" ++ a))
      = ((a == "") || endsWithSlash a) := by
    have h1 : (d ++ "/" ++ a == "") = false := by simp [sep_ne_empty d a]
    rw [h1, endsWithSlash_sep, Bool.false_or]
  rw [hb, hcond]
  by_cases h2 : ((a == "") || endsWithSlash a) = true
  · simp only [Bool.false_eq_true, if_false, h2, if_true]
    rw [String.append_assoc]
  · simp only [Bool.false_eq_true, if_false, h2]
    simp only [String.append_assoc]

theorem osJoin_sep (rest : List String) (d a : String)
    (h : ∀ b ∈ rest, startsWithSlash b = false) :
    osJoin (d ++ "/" ++ a) rest = d ++ "/" ++ osJoin a rest := by
  induction rest generalizing a with
  | nil => rfl
  | cons b rest ih =>
      show osJoin (joinStep (d ++ "/" ++ a) b) rest
        = d ++ "/" ++ osJoin (joinStep a b) rest
      rw [joinStep_sep d a b (h b (List.mem_cons_self b rest))]
      exact ih (joinStep a b) (fun x hx => h x (List.mem_cons_of_mem b hx))

theorem joinStep_not_starts (a b : String) (ha : startsWithSlash a = false)
    (hb : startsWithSlash b = false) : startsWithSlash (joinStep a b) = false := by
  unfold joinStep
  rw [hb]
  simp only [Bool.false_eq_true, if_false]
  by_cases hcond : ((a == "") || endsWithSlash a) = true
  · rw [if_pos hcond]
    by_cases hae : a = ""
    · subst hae
      rw [String.empty_append]
      exact hb
    · rw [startsWithSlash_append a b hae]
      exact ha
  · rw [if_neg hcond]
    have hae : a ≠ "" := by
      intro he
      subst he
      simp at hcond
    rw [startsWithSlash_append (a ++ "/") b (append_slash_ne_empty a),
      startsWithSlash_append a "/" hae]
    exact ha

theorem osJoin_not_starts (rest : List String) (a : String)
    (ha : startsWithSlash a = false)
    (h : ∀ b ∈ rest, startsWithSlash b = false) :
    startsWithSlash (osJoin a rest) = false := by
  induction rest generalizing a with
  | nil => exact ha
  | cons b rest ih =>
      show startsWithSlash (osJoin (joinStep a b) rest) = false
      exact ih (joinStep a b)
        (joinStep_not_starts a b ha (h b (List.mem_cons_self b rest)))
        (fun x hx => h x (List.mem_cons_of_mem b hx))

theorem joinSegs_cons_clean (d x : String) (rest : List String)
    (hx : startsWithSlash x = false)
    (hrest : ∀ b ∈ rest, startsWithSlash b = false)
    (hdne : d ≠ "") (hdstart : startsWithSlash d = false)
    (hdend : endsWithSlash d = false) :
    joinSegs (d :: x :: rest) = d ++ "/" ++ joinSegs (x :: rest) := by
  show lstripSlashes (osJoin d (x :: rest)) = d ++ "/" ++ joinSegs (x :: rest)
  have hstep : joinStep d x = d ++ "/" ++ x := by
    unfold joinStep
    have h1 : (d == "") = false := by simp [hdne]
    rw [hx, h1, hdend]
    simp
  have h1 : osJoin d (x :: rest) = d ++ "/" ++ osJoin x rest := by
    show osJoin (joinStep d x) rest = _
    rw [hstep]
    exact osJoin_sep rest d x hrest
  rw [h1]
  have h2 : startsWithSlash (d ++ "/" ++ osJoin x rest) = false := by
    rw [startsWithSlash_append (d ++ "/") _ (append_slash_ne_empty d),
      startsWithSlash_append d "/" hdne]
    exact hdstart
  rw [lstrip_of_not_starts _ h2]
  congr 1
  cases rest with
  | nil => rfl
  | cons y rest' =>
      show osJoin x (y :: rest') = lstripSlashes (osJoin x (y :: rest'))
      rw [lstrip_of_not_starts _ (osJoin_not_starts (y :: rest') x hx hrest)]

/-! ### Properties of the hex digest string -/

theorem hexDigit_ne_slash (n : Nat) : hexDigit n ≠ '/' := by
  unfold hexDigit
  split <;> decide

theorem flatMap_byteHex_length (l : List Nat) :
    (l.flatMap byteHex).length = 2 * l.length := by
  induction l with
  | nil => rfl
  | cons b t ih =>
      rw [List.flatMap_cons, List.length_append, ih]
      simp [byteHex]
      ring

theorem sha1Bytes_length (msg : List Nat) : (sha1Bytes msg).length = 20 := by
  simp [sha1Bytes, wordBytes]

theorem sha1hex_data (msg : List Nat) :
    (sha1hex msg).data = (sha1Bytes msg).flatMap byteHex := rfl

theorem sha1hex_length (msg : List Nat) : (sha1hex msg).data.length = 40 := by
  rw [sha1hex_data, flatMap_byteHex_length, sha1Bytes_length]

theorem sha1hex_no_slash (msg : List Nat) :
    ∀ c ∈ (sha1hex msg).data, c ≠ '/' := by
  intro c hc
  rw [sha1hex_data, List.mem_flatMap] at hc
  obtain ⟨b, _, hb⟩ := hc
  simp only [byteHex, List.mem_cons, List.not_mem_nil, or_false] at hb
  rcases hb with h | h <;> rw [h] <;> exact hexDigit_ne_slash _

theorem sha1hex_ne_empty (msg : List Nat) : sha1hex msg ≠ "" := by
  intro h
  have h2 : (sha1hex msg).data.length = ("" : String).data.length := by rw [h]
  rw [sha1hex_length] at h2
  simp at h2

theorem sha1hex_not_starts (msg : List Nat) :
    startsWithSlash (sha1hex msg) = false :=
  startsWithSlash_of_forall_ne _ (sha1hex_no_slash msg)

theorem sha1hex_not_ends (msg : List Nat) :
    endsWithSlash (sha1hex msg) = false :=
  endsWithSlash_of_forall_ne _ (sha1hex_no_slash msg)

/-! ### Properties of the pre-randomization segment list -/

theorem preRandomSegs_randomize (cfg : Policy) (b : Bool) (p : String) :
    preRandomSegs { cfg with randomizeKeys := b } p = preRandomSegs cfg p := rfl

theorem rootImageName_randomize (cfg : Policy) (b : Bool) :
    (Policy.rootImageName { cfg with randomizeKeys := b }) = cfg.rootImageName := rfl

theorem preRandomSegs_ne_nil (cfg : Policy) (p : String) :
    preRandomSegs cfg p ≠ [] := by
  unfold preRandomSegs
  rcases h : cfg.rootPath with _ | r <;> cases hw : cfg.autoWebp <;> simp
  all_goals split <;> simp

theorem preRandomSegs_clean (cfg : Policy) (p : String)
    (hroot : rootOkB cfg = true) :
    ∀ b ∈ preRandomSegs cfg p, startsWithSlash b = false := by
  intro b hb
  have hlst := startsWithSlash_lstrip p
  have hwebp : startsWithSlash "webp" = false := by decide
  unfold rootOkB at hroot
  unfold preRandomSegs at hb
  rcases h : cfg.rootPath with _ | r
  case none =>
    rw [h] at hb
    cases hw : cfg.autoWebp
    · simp [hw] at hb
      rw [hb]
      exact hlst
    · simp [hw] at hb
      rcases hb with hb | hb
      · rw [hb]
        exact hlst
      · rw [hb]
        exact hwebp
  case some =>
    rw [h] at hroot hb
    have hr : startsWithSlash r = false := by simpa using hroot
    by_cases hre : (r == "") = true
    · cases hw : cfg.autoWebp
      · simp [hw, hre] at hb
        rw [hb]
        exact hlst
      · simp [hw, hre] at hb
        rcases hb with hb | hb
        · rw [hb]
          exact hlst
        · rw [hb]
          exact hwebp
    · cases hw : cfg.autoWebp
      · simp [hw, hre] at hb
        rcases hb with hb | hb
        · rw [hb]
          exact hr
        · rw [hb]
          exact hlst
      · simp [hw, hre] at hb
        rcases hb with hb | hb | hb
        · rw [hb]
          exact hr
        · rw [hb]
          exact hlst
        · rw [hb]
          exact hwebp

/-! ### Expiry helper -/

theorem is_expired_valid (t nowUs lmUs : Nat) (o : Bool)
    (ht : (t == 0) = false) :
    is_expired (some t) nowUs (some ⟨none, some lmUs, o⟩)
      = decide (timedeltaSeconds ((nowUs : Int) - (lmUs : Int)) > (t : Int)) := by
  unfold is_expired
  simp [Descriptor.isTruthy, get_error, ht]

/-! ### Claims -/

/-- C1 (amended): for a present, error-free descriptor with a last-modified
timestamp and a positive TTL, `is_expired` compares the TTL against the
elapsed time truncated to whole seconds and reduced modulo 86400 (the
`timedelta.seconds` field: the day component of the age is discarded).  In
particular, with `ttl_seconds = 60`, an age of 60.999s gives `false` and an
age of 61.0s gives `true`. -/
theorem is_expired_compares_seconds_within_day :
    (∀ (t nowUs lmUs : Nat) (o : Bool),
      is_expired (some (t + 1)) nowUs (some ⟨none, some lmUs, o⟩)
        = decide (timedeltaSeconds ((nowUs : Int) - (lmUs : Int))
            > ((t + 1 : Nat) : Int)))
    ∧ is_expired (some 60) 60999000 (some ⟨none, some 0, false⟩) = false
    ∧ is_expired (some 60) 61000000 (some ⟨none, some 0, false⟩) = true := by
  refine ⟨?_, by decide, by decide⟩
  intro t nowUs lmUs o
  exact is_expired_valid (t + 1) nowUs lmUs o rfl

/-- C1 counterexample: with `ttl_seconds = 60` and an age of exactly
86401 seconds (24h + 1s), the elapsed time truncated to whole seconds is
86401, which is greater than 60, so the claim demands `true`; the code
computes `timedelta.seconds = 1` and returns `false`. -/
theorem is_expired_age_over_24h_cex :
    is_expired (some 60) 86401000000 (some ⟨none, some 0, false⟩) = false
    ∧ Int.fdiv ((86401000000 : Int) - 0) 1000000 = 86401 := by
  exact ⟨by decide, by decide⟩

/-- C2: key derivation for path `/images/cat.jpg` with `root_path = "prod"`,
`randomize_keys = false`: without webp the key is `prod/images/cat.jpg`,
with webp it is `prod/images/cat.jpg/webp` — single slash separators. -/
theorem normalize_path_end_to_end :
    normalize_path ⟨some "prod", false, false, "image.jpg"⟩ "/images/cat.jpg"
      = "prod/images/cat.jpg"
    ∧ normalize_path ⟨some "prod", true, false, "image.jpg"⟩ "/images/cat.jpg"
      = "prod/images/cat.jpg/webp" := by
  exact ⟨by decide, by decide⟩

/-- C3 (amended): provided the configured root path does not itself start
with `/` (a leading slash makes `posixpath.join` restart the path there,
silently discarding the digest) and the non-randomized key is non-empty,
enabling `randomize_keys` prepends exactly one new leading segment — the
hex SHA-1 digest of the pre-randomization segment list joined with `.` —
leaving the rest of the key unchanged; the digest is slash-free and 40
characters long, so it forms exactly one segment and never contains
itself. -/
theorem randomize_keys_prepends_digest (p : String) (cfg : Policy)
    (hroot : rootOkB cfg = true)
    (hk0 : normalize_path { cfg with randomizeKeys := false } p ≠ "") :
    normalize_path { cfg with randomizeKeys := true } p
      = generate_digest (preRandomSegs cfg p) ++ "/"
          ++ normalize_path { cfg with randomizeKeys := false } p
    ∧ (∀ c ∈ (generate_digest (preRandomSegs cfg p)).data, c ≠ '/')
    ∧ (generate_digest (preRandomSegs cfg p)).data.length = 40 := by
  have hd40 : (generate_digest (preRandomSegs cfg p)).data.length = 40 :=
    sha1hex_length _
  have hdns : ∀ c ∈ (generate_digest (preRandomSegs cfg p)).data, c ≠ '/' :=
    sha1hex_no_slash _
  have hdne : generate_digest (preRandomSegs cfg p) ≠ "" := sha1hex_ne_empty _
  have hdstart : startsWithSlash (generate_digest (preRandomSegs cfg p)) = false :=
    sha1hex_not_starts _
  have hdend : endsWithSlash (generate_digest (preRandomSegs cfg p)) = false :=
    sha1hex_not_ends _
  have hclean : ∀ b ∈ preRandomSegs cfg p, startsWithSlash b = false :=
    preRandomSegs_clean cfg p hroot
  have hnp0 : normalize_path { cfg with randomizeKeys := false } p
      = (if endsWithSlash (joinSegs (preRandomSegs cfg p))
          then joinSegs (preRandomSegs cfg p) ++ cfg.rootImageName
          else joinSegs (preRandomSegs cfg p)) := rfl
  have hnp1 : normalize_path { cfg with randomizeKeys := true } p
      = (if endsWithSlash (joinSegs
            (generate_digest (preRandomSegs cfg p) :: preRandomSegs cfg p))
          then joinSegs
              (generate_digest (preRandomSegs cfg p) :: preRandomSegs cfg p)
              ++ cfg.rootImageName
          else joinSegs
              (generate_digest (preRandomSegs cfg p) :: preRandomSegs cfg p)) := rfl
  have hJne : joinSegs (preRandomSegs cfg p) ≠ "" := by
    intro hJ
    apply hk0
    rw [hnp0, hJ]
    have he : endsWithSlash "" = false := rfl
    rw [he]
    simp
  obtain ⟨x, rest, hxr⟩ : ∃ x rest, preRandomSegs cfg p = x :: rest := by
    rcases hs : preRandomSegs cfg p with _ | ⟨x, rest⟩
    · exact absurd hs (preRandomSegs_ne_nil cfg p)
    · exact ⟨x, rest, rfl⟩
  have hcons : joinSegs
      (generate_digest (preRandomSegs cfg p) :: preRandomSegs cfg p)
      = generate_digest (preRandomSegs cfg p) ++ "/"
          ++ joinSegs (preRandomSegs cfg p) := by
    have hx : startsWithSlash x = false := hclean x (by rw [hxr]; exact List.mem_cons_self x rest)
    have hrest : ∀ b ∈ rest, startsWithSlash b = false :=
      fun b hb => hclean b (by rw [hxr]; exact List.mem_cons_of_mem x hb)
    rw [hxr] at hdne hdstart hdend
    rw [hxr]
    exact joinSegs_cons_clean _ x rest hx hrest hdne hdstart hdend
  refine ⟨?_, hdns, hd40⟩
  rw [hnp1, hnp0, hcons, endsWithSlash_sep]
  have hJb : (joinSegs (preRandomSegs cfg p) == "") = false := by simp [hJne]
  rw [hJb, Bool.false_or]
  by_cases hE : endsWithSlash (joinSegs (preRandomSegs cfg p)) = true
  · rw [if_pos hE, if_pos hE, String.append_assoc]
  · rw [if_neg hE, if_neg hE]

/-- C3 witness: concrete instantiation at path `/images/cat.jpg` with
`root_path = "prod"`. -/
theorem randomize_keys_prepends_digest_witness :
    rootOkB ⟨some "prod", false, false, "image.jpg"⟩ = true
    ∧ normalize_path ⟨some "prod", false, false, "image.jpg"⟩ "/images/cat.jpg" ≠ ""
    ∧ normalize_path ⟨some "prod", false, true, "image.jpg"⟩ "/images/cat.jpg"
        = generate_digest
            (preRandomSegs ⟨some "prod", false, false, "image.jpg"⟩ "/images/cat.jpg")
          ++ "/"
          ++ normalize_path ⟨some "prod", false, false, "image.jpg"⟩ "/images/cat.jpg" :=
  ⟨by decide, by decide,
    (randomize_keys_prepends_digest "/images/cat.jpg"
      ⟨some "prod", false, false, "image.jpg"⟩ (by decide) (by decide)).1⟩

/-- C3 counterexample: with `root_path = "/prod"` (leading slash) and path
`x`, the randomized key equals plain `prod/x`: `posixpath.join` restarts at
`/prod`, so no digest segment is prepended at all, contradicting the claim
for this policy. -/
theorem randomize_keys_digest_cex :
    ¬ (normalize_path ⟨some "/prod", false, true, "image.jpg"⟩ "x"
        = generate_digest (preRandomSegs ⟨some "/prod", false, true, "image.jpg"⟩ "x")
          ++ "/" ++ normalize_path ⟨some "/prod", false, false, "image.jpg"⟩ "x") := by
  intro h
  have h1 : normalize_path ⟨some "/prod", false, true, "image.jpg"⟩ "x"
      = "prod/x" := by decide
  have h0 : normalize_path ⟨some "/prod", false, false, "image.jpg"⟩ "x"
      = "prod/x" := by decide
  rw [h1, h0] at h
  have hlen : ("prod/x" : String).data.length
      = ((generate_digest (preRandomSegs ⟨some "/prod", false, true, "image.jpg"⟩ "x")
          ++ "/") ++ "prod/x").data.length := by rw [← h]
  have hg : (generate_digest
      (preRandomSegs ⟨some "/prod", false, true, "image.jpg"⟩ "x")).data.length
      = 40 := sha1hex_length _
  rw [String.data_append, String.data_append, List.length_append,
    List.length_append, hg] at hlen
  have e1 : ("prod/x" : String).data.length = 6 := rfl
  have e2 : ("/" : String).data.length = 1 := rfl
  rw [e1, e2] at hlen
  omega

/-- C4: whenever `root_image_name` is non-empty and does not end in `/`,
the derived key never ends with `/`; a directory-form path such as `a/b/`
is rewritten to end in `root_image_name`. -/
theorem derived_key_never_ends_with_slash (p : String) (cfg : Policy)
    (h1 : cfg.rootImageName ≠ "")
    (h2 : endsWithSlash cfg.rootImageName = false) :
    endsWithSlash (normalize_path cfg p) = false
    ∧ normalize_path ⟨none, false, false, "image.jpg"⟩ "a/b/" = "a/b/image.jpg" := by
  constructor
  · have key : ∀ n : String,
        endsWithSlash (if endsWithSlash n then n ++ cfg.rootImageName else n)
          = false := by
      intro n
      split
      · rw [endsWithSlash_append _ _ h1]
        exact h2
      · next hE => simpa using hE
    exact key (joinSegs (if cfg.randomizeKeys then
      generate_digest (preRandomSegs cfg p) :: preRandomSegs cfg p
      else preRandomSegs cfg p))
  · decide

/-- C4 witness: concrete instantiation at path `a/b/` with
`root_image_name = "image.jpg"`. -/
theorem derived_key_never_ends_with_slash_witness :
    ("image.jpg" : String) ≠ ""
    ∧ endsWithSlash "image.jpg" = false
    ∧ endsWithSlash (normalize_path ⟨none, false, false, "image.jpg"⟩ "a/b/") = false :=
  ⟨by decide, by decide,
    (derived_key_never_ends_with_slash "a/b/" ⟨none, false, false, "image.jpg"⟩
      (by decide) (by decide)).1⟩

/-- C5: `put_crypto` gating in order: with the per-image-crypto-key policy
disabled it returns `None` and performs no object-store write (empty write
list); with the policy enabled and no security key (absent or empty) it
raises the configuration fault, with no write performed. -/
theorem put_crypto_gating :
    ∀ (cfg : Policy) (p : String) (key : Option String),
      put_crypto ⟨false, key⟩ cfg p = .ok (none, [])
      ∧ put_crypto ⟨true, none⟩ cfg p = .error .configurationFault
      ∧ put_crypto ⟨true, some ""⟩ cfg p = .error .configurationFault := by
  intro cfg p key
  exact ⟨rfl, rfl, rfl⟩

/-- C6 (amended): `exists` returns `false` exactly when the response for
the derived key is absent or falsy, or the error value extracted by
`_get_error` is truthy (a non-empty message, or a message-less non-empty
error payload); it never applies the expiry policy — a descriptor that
`is_expired` already rejects as stale still makes `exists` return `true`. -/
theorem exists_ignores_expiry :
    (∀ (store : String → Option Descriptor) (cfg : Policy) (p : String),
      (exists_ store cfg p = false ↔
        match store (normalize_path cfg p) with
        | none => True
        | some d => d.isTruthy = false ∨ errTruthy (get_error d) = true))
    ∧ (∀ (cfg : Policy) (p : String) (lm : Nat),
        exists_ (fun _ => some ⟨none, some lm, false⟩) cfg p = true
        ∧ is_expired (some 1) (lm + 10000000000)
            (some ⟨none, some lm, false⟩) = true) := by
  constructor
  · intro store cfg p
    unfold exists_
    cases hs : store (normalize_path cfg p) with
    | none => simp
    | some d =>
        cases hT : d.isTruthy <;> cases hEr : errTruthy (get_error d) <;>
          simp [hT, hEr]
  · intro cfg p lm
    refine ⟨rfl, ?_⟩
    have hc : ((lm + 10000000000 : Nat) : Int) - (lm : Int) = 10000000000 := by
      push_cast
      ring
    rw [is_expired_valid 1 (lm + 10000000000) lm false rfl, hc]
    decide

/-- C6 counterexample: a present descriptor carrying an error indicator
whose `Message` is the empty string makes `exists` return `true` (the code
tests the truthiness of `_get_error`, and an empty message is falsy), while
the claim demands `false` for any descriptor carrying an error indicator. -/
theorem exists_empty_error_message_cex :
    exists_ (fun _ => some ⟨some ⟨some "", false⟩, some 0, false⟩)
        ⟨none, false, false, "image.jpg"⟩ "x" = true
    ∧ (Descriptor.errorField ⟨some ⟨some "", false⟩, some 0, false⟩).isSome
        = true :=
  ⟨rfl, rfl⟩

/-- C7: `is_expired` returns `true` whenever the response is absent,
carries an `Error` key, or lacks `LastModified` — for every TTL setting,
including the never-expire ones. -/
theorem is_expired_bad_descriptor_true :
    ∀ (ttl : Option Nat) (nowUs : Nat),
      is_expired ttl nowUs none = true
      ∧ (∀ (e : ErrorVal) (lm : Option Nat) (o : Bool),
          is_expired ttl nowUs (some ⟨some e, lm, o⟩) = true)
      ∧ (∀ (o : Bool), is_expired ttl nowUs (some ⟨none, none, o⟩) = true) := by
  intro ttl nowUs
  refine ⟨rfl, ?_, ?_⟩
  · intro e lm o
    unfold is_expired
    rcases e with ⟨msg, other⟩
    cases msg <;> simp [Descriptor.isTruthy, get_error]
  · intro o
    unfold is_expired
    simp [Descriptor.isTruthy, get_error]

/-- C8: for a present, error-free descriptor with a last-modified
timestamp, `is_expired` returns `false` when the TTL is unset or zero,
whatever the age. -/
theorem is_expired_never_expire_false :
    ∀ (nowUs lmUs : Nat) (o : Bool),
      is_expired none nowUs (some ⟨none, some lmUs, o⟩) = false
      ∧ is_expired (some 0) nowUs (some ⟨none, some lmUs, o⟩) = false := by
  intro nowUs lmUs o
  constructor <;> (unfold is_expired; simp [Descriptor.isTruthy, get_error])

/-- C9: sidecar key derivation strips the last extension of the primary key
and appends `.txt` (crypto) or `.detectors.txt` (detector data); a key
without an extension is used whole. -/
theorem sidecar_key_derivation :
    cryptoSidecarPath "a/b.jpg" = "a/b.txt"
    ∧ detectorSidecarPath "a/b.jpg" = "a/b.detectors.txt"
    ∧ cryptoSidecarPath "a/b" = "a/b.txt" := by
  exact ⟨by decide, by decide, by decide⟩

/-- C10: a path consisting only of slashes, with no root path, no webp and
no randomization, derives the empty key: stripping leaves the empty string,
which does not end with `/`, so `root_image_name` is not substituted. -/
theorem slash_only_path_empty_key :
    ∀ (img : String),
      normalize_path ⟨none, false, false, img⟩ "/" = ""
      ∧ normalize_path ⟨none, false, false, img⟩ "///" = "" := by
  intro img
  exact ⟨rfl, rfl⟩

end TcAws
